import Mathlib

/-!
Shallow embedding of the UPstartDeveloper/Graph-ADT library
(src/graphs/graph.py, src/graphs/weighted_graph.py, src/graphs/binaryheap.py).

Conventions used throughout:
* Vertex ids are strings in the source (single capital letters in every
  fixture).  We embed them as `Nat` via the order-preserving map
  A=0, B=1, C=2, D=3, E=4, F=5, G=6, H=7, J=8 (the repository's test graph
  has no vertex `I`).  Python's lexicographic comparison of the one-letter
  id strings coincides with `Nat` order under this map, so tuple sorting is
  preserved.
* Python `dict`s preserve insertion order; updating an existing key keeps
  its position, deleting removes it.  We model them as association lists
  (`List (Nat × β)`) with exactly those operations.
* The algorithms mix `int` weights with `float('inf')`; we model the values
  flowing through them with `PVal` (an integer or infinity).
* Python `while` loops whose progress is data-dependent are embedded with an
  explicit fuel argument; `none` marks a run that would not terminate (or
  would raise) in Python.  Every fuel bound chosen below strictly dominates
  the number of iterations of the corresponding terminating loop.
-/

namespace GraphADT

/-- Numeric values used by the weighted-graph algorithms: a Python `int`
or `float('inf')`. -/
inductive PVal where
  | int : Int → PVal
  | inf : PVal
deriving DecidableEq

/-- Python `+` on these values (`inf + x = inf`). -/
def PVal.add : PVal → PVal → PVal
  | .int a, .int b => .int (a + b)
  | _, _ => .inf

/-- Python `<` on these values. -/
def PVal.ltb : PVal → PVal → Bool
  | .int a, .int b => decide (a < b)
  | .int _, .inf => true
  | .inf, _ => false

/-- Python `min` over a list of values (returns `inf` on the empty list;
the source only applies it to non-empty dictionaries). -/
def pymin (l : List PVal) : PVal :=
  l.foldl (fun a b => if PVal.ltb b a then b else a) .inf

/-- Python `min(a, b)` (returns the first argument on ties). -/
def pymin2 (a b : PVal) : PVal :=
  if PVal.ltb b a then b else a

/-- Membership test on a list (Python `in` for lists and sets). -/
def lmem {α : Type} [DecidableEq α] (x : α) : List α → Bool
  | [] => false
  | y :: ys => if y = x then true else lmem x ys

/-- Python `list.remove`: drop the first occurrence of a value. -/
def removeFirst {α : Type} [DecidableEq α] (l : List α) (x : α) : List α :=
  match l with
  | [] => []
  | y :: ys => if y = x then ys else y :: removeFirst ys x

/-- Ordered-dict lookup (`d[k]` / `d.get(k)`): first entry with key `k`. -/
def dlookup {β : Type} (d : List (Nat × β)) (k : Nat) : Option β :=
  match d with
  | [] => none
  | (k', v) :: rest => if k' = k then some v else dlookup rest k

/-- Ordered-dict membership (`k in d`). -/
def dmem {β : Type} (d : List (Nat × β)) (k : Nat) : Bool :=
  (dlookup d k).isSome

/-- Ordered-dict store (`d[k] = v`): update in place if the key exists,
append otherwise (Python dicts keep the original position of a key). -/
def dset {β : Type} (d : List (Nat × β)) (k : Nat) (v : β) : List (Nat × β) :=
  match d with
  | [] => [(k, v)]
  | (k', v') :: rest => if k' = k then (k', v) :: rest else (k', v') :: dset rest k v

/-- Ordered-dict delete (`del d[k]`). -/
def ddel {β : Type} (d : List (Nat × β)) (k : Nat) : List (Nat × β) :=
  match d with
  | [] => []
  | (k', v') :: rest => if k' = k then rest else (k', v') :: ddel rest k

/-- Update the value stored at key `k` in place (mutation of the vertex
object held in the dictionary). -/
def dmodify {β : Type} (d : List (Nat × β)) (k : Nat) (f : β → β) : List (Nat × β) :=
  match d with
  | [] => []
  | (k', v) :: rest => if k' = k then (k', f v) :: rest else (k', v) :: dmodify rest k f

/-- Keys of an ordered dict, in insertion order (`list(d.keys())`). -/
def dkeys {β : Type} (d : List (Nat × β)) : List Nat :=
  d.map Prod.fst

/-- Values of an ordered dict, in insertion order (`list(d.values())`). -/
def dvalues {β : Type} (d : List (Nat × β)) : List β :=
  d.map Prod.snd

/-- Last key of the dict whose value equals `v` (the result of Python's
`for key, val in d.items(): if val == target: found = key`, scanning the
whole dict without a break). -/
def lastKeyWithVal {β : Type} [DecidableEq β] (d : List (Nat × β)) (v : β) : Option Nat :=
  d.foldl (fun acc (k, v') => if v' = v then some k else acc) none

/-! ### WeightedGraph (src/graphs/weighted_graph.py)

A `WeightedVertex` is its id together with `neighbors_dict : id ↦ (obj, weight)`;
vertex objects are in bijection with their ids in every state reachable
through the construction API, so we keep only the id and the weight. -/

/-- State of a `WeightedGraph`: `vertex_dict` maps an id to the vertex's
`neighbors_dict` (neighbor id ↦ edge weight, in insertion order). -/
structure WeightedGraph where
  vertex_dict : List (Nat × List (Nat × Int))
  is_directed : Bool
deriving DecidableEq

/-- WeightedVertex.add_neighbor (weighted_graph.py lines 16-29): a no-op if
the neighbor id is already present, otherwise append `(id, weight)`. -/
def add_neighbor (nbrs : List (Nat × Int)) (nb : Nat) (w : Int) : List (Nat × Int) :=
  if dmem nbrs nb then nbrs else nbrs ++ [(nb, w)]

/-- WeightedGraph.add_vertex (lines 70-82): unconditionally store a fresh
`WeightedVertex` (empty adjacency) under the id. -/
def WeightedGraph.add_vertex (g : WeightedGraph) (vertex_id : Nat) : WeightedGraph :=
  { g with vertex_dict := dset g.vertex_dict vertex_id [] }

/-- WeightedGraph.add_edge (lines 84-105): `ValueError` if either endpoint
is absent; otherwise `vertex1.add_neighbor(vertex2, weight)` and, when the
graph is undirected, also the reverse. -/
def WeightedGraph.add_edge (g : WeightedGraph) (vertex_id1 vertex_id2 : Nat) (weight : Int) :
    Except String WeightedGraph :=
  if !dmem g.vertex_dict vertex_id1 || !dmem g.vertex_dict vertex_id2 then
    .error "One or both vertices not found."
  else
    let d1 := dmodify g.vertex_dict vertex_id1 (fun adj => add_neighbor adj vertex_id2 weight)
    let d2 := if g.is_directed = false then
        dmodify d1 vertex_id2 (fun adj => add_neighbor adj vertex_id1 weight)
      else d1
    .ok { g with vertex_dict := d2 }

/-- Edge triple `(weight, id1, id2)` as built by `sort_edges`. -/
abbrev WEdge := Int × Nat × Nat

/-- Lexicographic comparison of `(weight, id1, id2)` triples, as Python
compares tuples of an int and two (single-letter) strings. -/
def wedgeLe (e1 e2 : WEdge) : Bool :=
  if e1.1 < e2.1 then true
  else if e2.1 < e1.1 then false
  else if e1.2.1 < e2.2.1 then true
  else if e2.2.1 < e1.2.1 then false
  else e1.2.2 ≤ e2.2.2

/-- Lexicographic comparison of `(id1, id2, weight)` triples, used by the
final `sorted(mst_edges)`. -/
def medgeLe (e1 e2 : Nat × Nat × Int) (_ : Unit) : Bool :=
  if e1.1 < e2.1 then true
  else if e2.1 < e1.1 then false
  else if e1.2.1 < e2.2.1 then true
  else if e2.2.1 < e1.2.1 then false
  else e1.2.2 ≤ e2.2.2

/-- Insert into a sorted list, keeping earlier-inserted equals first
(Python's sort is stable; no two triples compare equal here anyway). -/
def insertSorted {α : Type} (le : α → α → Bool) (x : α) : List α → List α
  | [] => [x]
  | y :: ys => if le x y then x :: y :: ys else y :: insertSorted le x ys

/-- Comparison sort used to model Python `list.sort()` / `sorted`. -/
def isort {α : Type} (le : α → α → Bool) : List α → List α
  | [] => []
  | x :: xs => insertSorted le x (isort le xs)

/-- BFS loop of WeightedGraph.sort_edges (lines 109-146): collect every
edge once (skipping a triple whose reverse was already collected) while
walking the graph breadth-first. -/
def sortEdgesLoop (g : WeightedGraph) :
    Nat → List Nat → List Nat → List WEdge → Option (List WEdge)
  | 0, _, _, _ => none
  | _ + 1, [], _, edges => some edges
  | fuel + 1, cur :: qrest, seen, edges =>
    match dlookup g.vertex_dict cur with
    | none => none
    | some nbrs =>
      let edges := nbrs.foldl
        (fun es (p : Nat × Int) =>
          if lmem (p.2, cur, p.1) es || lmem (p.2, p.1, cur) es then es
          else es ++ [(p.2, cur, p.1)]) edges
      let qs := nbrs.foldl
        (fun (qs : List Nat × List Nat) (p : Nat × Int) =>
          if lmem p.1 qs.2 then qs else (qs.1 ++ [p.1], qs.2 ++ [p.1]))
        (qrest, seen)
      sortEdgesLoop g fuel qs.1 qs.2 edges

/-- WeightedGraph.sort_edges: BFS edge collection followed by `edges.sort()`. -/
def WeightedGraph.sort_edges (g : WeightedGraph) (start_id : Nat) : Option (List WEdge) :=
  (sortEdgesLoop g (g.vertex_dict.length + 1) [start_id] [start_id] []).map (isort wedgeLe)

/-- WeightedGraph.find (lines 155-159): chase parent links to the root.
The fuel bounds the chain length; the chains arising in this code are
acyclic so the bound `parent_map.length + 1` is never reached. -/
def ufind (parent_map : List (Nat × Nat)) : Nat → Nat → Option Nat
  | 0, _ => none
  | fuel + 1, vertex_id =>
    match dlookup parent_map vertex_id with
    | none => none
    | some p => if p = vertex_id then some vertex_id else ufind parent_map fuel p

/-- WeightedGraph.union (lines 148-152): attach root(a) under root(b).
Defined for completeness; `minimum_spanning_tree_kruskal` never calls it. -/
def uunion (parent_map : List (Nat × Nat)) (vertex_id1 vertex_id2 : Nat) :
    Option (List (Nat × Nat)) :=
  match ufind parent_map (parent_map.length + 1) vertex_id1,
        ufind parent_map (parent_map.length + 1) vertex_id2 with
  | some r1, some r2 => some (dset parent_map r1 r2)
  | _, _ => none

/-- Main loop of Kruskal (lines 178-188): while fewer than `|V| - 1` edges
are chosen, look at `edges[0]`; if its endpoints have different roots,
append it (as `(id1, id2, weight)`) and remove it from `edges`.  The
source never merges the two groups, and when the roots coincide nothing
changes, which in Python loops forever — that state repeats until the
fuel runs out here. -/
def kruskalLoop (nverts : Nat) (parent_map : List (Nat × Nat)) :
    Nat → List WEdge → List (Nat × Nat × Int) → Option (List (Nat × Nat × Int))
  | 0, _, _ => none
  | fuel + 1, edges, mst_edges =>
    if mst_edges.length < nverts - 1 then
      match edges with
      | [] => none
      | next :: _ =>
        match ufind parent_map (parent_map.length + 1) next.2.1,
              ufind parent_map (parent_map.length + 1) next.2.2 with
        | some r1, some r2 =>
          if r1 = r2 then kruskalLoop nverts parent_map fuel edges mst_edges
          else kruskalLoop nverts parent_map fuel (removeFirst edges next)
            (mst_edges ++ [(next.2.1, next.2.2, next.1)])
        | _, _ => none
    else some (isort (fun a b => medgeLe a b ()) mst_edges)

/-- WeightedGraph.minimum_spanning_tree_kruskal (lines 161-192). -/
def WeightedGraph.minimum_spanning_tree_kruskal (g : WeightedGraph) :
    Option (List (Nat × Nat × Int)) := do
  let first ← g.vertex_dict.head?
  let edges ← g.sort_edges first.1
  let parent_map := g.vertex_dict.map (fun p => (p.1, p.1))
  kruskalLoop g.vertex_dict.length parent_map (edges.length + 2) edges []

/-- One pass of the neighbor-relaxation loop shared by Prim and Dijkstra:
`if weight < current: d[neighbor] = weight` (the *edge* weight, not an
accumulated distance).  Returns the updated dict together with the final
value of the loop variable `weight` (Prim's running total is shadowed by
it). -/
def relaxNeighbors (nbrs : List (Nat × Int)) (d : List (Nat × PVal)) (w : PVal) :
    List (Nat × PVal) × PVal :=
  nbrs.foldl
    (fun (st : List (Nat × PVal) × PVal) (p : Nat × Int) =>
      let d' := match dlookup st.1 p.1 with
        | none => st.1
        | some cur => if PVal.ltb (.int p.2) cur then dset st.1 p.1 (.int p.2) else st.1
      (d', PVal.int p.2))
    (d, w)

/-- Main loop of WeightedGraph.minimum_spanning_tree_prim (lines 212-231).
`weight` names both the running total and two loop variables in the
source; the embedding reproduces that shadowing exactly: after the
min-scan it holds the last value in the dict, and after the relaxation
loop it holds the last neighbor's edge weight. -/
def primLoop (g : WeightedGraph) :
    Nat → List (Nat × PVal) → PVal → Option PVal
  | 0, d, w => if d = [] then some w else none
  | fuel + 1, d, w =>
    if d = [] then some w
    else
      let min_distance := pymin (dvalues d)
      let wScan := match d.getLast? with
        | some p => p.2
        | none => w
      match lastKeyWithVal d min_distance with
      | none => none
      | some min_vertex =>
        let d1 := ddel d min_vertex
        let w1 := PVal.add wScan min_distance
        match dlookup g.vertex_dict min_vertex with
        | none => none
        | some nbrs =>
          let st := relaxNeighbors nbrs d1 w1
          primLoop g fuel st.1 st.2

/-- WeightedGraph.minimum_spanning_tree_prim (lines 196-233). -/
def WeightedGraph.minimum_spanning_tree_prim (g : WeightedGraph) : Option PVal :=
  match g.vertex_dict.head? with
  | none => none
  | some first =>
    let d0 := g.vertex_dict.map (fun p => (p.1, PVal.inf))
    let d1 := dset d0 first.1 (.int 0)
    primLoop g (d1.length + 1) d1 (.int 0)

/-- Main loop of WeightedGraph.find_shortest_path (lines 253-277).  The
source deletes `vertex_to_weight[vertex]` where `vertex` is the loop
variable left over from the min-scan — i.e. the *last key of the dict* —
rather than `min_vertex`. -/
def dijkstraLoop (g : WeightedGraph) (target_id : Nat) :
    Nat → List (Nat × PVal) → PVal → Option (Option PVal)
  | 0, d, _ => if d = [] then some none else none
  | fuel + 1, d, path_weight =>
    if d = [] then some none
    else
      let min_distance := pymin (dvalues d)
      match lastKeyWithVal d min_distance, d.getLast? with
      | some min_vertex, some lastEntry =>
        let d1 := ddel d lastEntry.1
        let pw1 := PVal.add path_weight min_distance
        if min_vertex = target_id then some (some pw1)
        else
          match dlookup g.vertex_dict min_vertex with
          | none => none
          | some nbrs => dijkstraLoop g target_id fuel (relaxNeighbors nbrs d1 pw1).1 pw1
      | _, _ => none

/-- WeightedGraph.find_shortest_path (lines 237-280): Dijkstra as written
in the source.  `some none` is Python's `return None`. -/
def WeightedGraph.find_shortest_path (g : WeightedGraph) (start_id target_id : Nat) :
    Option (Option PVal) :=
  if !dmem g.vertex_dict start_id then none
  else
    let d0 := g.vertex_dict.map (fun p => (p.1, PVal.inf))
    let d1 := dset d0 start_id (.int 0)
    dijkstraLoop g target_id (d1.length + 1) d1 (.int 0)

/-- Entry of a Floyd–Warshall distance matrix (keys always present for ids
of the graph; the default is never consulted by the theorems below). -/
def fwEntry (dist : List (Nat × List (Nat × PVal))) (i j : Nat) : PVal :=
  match dlookup dist i with
  | none => .inf
  | some row => (dlookup row j).getD .inf

/-- Store into a Floyd–Warshall distance matrix (`dist[i][j] = v`). -/
def fwSet (dist : List (Nat × List (Nat × PVal))) (i j : Nat) (v : PVal) :
    List (Nat × List (Nat × PVal)) :=
  dmodify dist i (fun row => dset row j v)

/-- WeightedGraph.floyd_warshall (lines 282-311): initialise every entry to
infinity, set the diagonal to 0, then run the k-outer triple loop.  The
source's "update the distances based on edge weights" loop (lines
299-305) has `pass` as its body and is a no-op, so no edge weight is ever
seeded. -/
def WeightedGraph.floyd_warshall (g : WeightedGraph) : List (Nat × List (Nat × PVal)) :=
  let all_vertex_ids := dkeys g.vertex_dict
  let dist0 := all_vertex_ids.map (fun i => (i, all_vertex_ids.map (fun j => (j, PVal.inf))))
  let dist1 := all_vertex_ids.foldl (fun dd i => fwSet dd i i (.int 0)) dist0
  all_vertex_ids.foldl
    (fun dd k =>
      all_vertex_ids.foldl
        (fun dd i =>
          all_vertex_ids.foldl
            (fun dd j => fwSet dd i j (pymin2 (fwEntry dd i j) (PVal.add (fwEntry dd i k) (fwEntry dd k j))))
            dd)
        dd)
    dist1

/-! ### Graph (src/graphs/graph.py)

A `Vertex` is its id plus `neighbors_dict : id ↦ object`; again we keep
only the ids.  -/

/-- State of an unweighted `Graph`: `vertex_dict` maps an id to the list of
neighbor ids in insertion order. -/
structure Graph where
  vertex_dict : List (Nat × List Nat)
  is_directed : Bool
deriving DecidableEq

/-- Vertex.add_neighbor (graph.py lines 18-26): `d[neighbor_id] = obj`,
which re-stores an existing key in place and appends a new one. -/
def addNeighborU (nbrs : List Nat) (nb : Nat) : List Nat :=
  if lmem nb nbrs then nbrs else nbrs ++ [nb]

/-- Graph.add_vertex (lines 60-72): unconditionally store a fresh `Vertex`
(empty adjacency) under the id. -/
def Graph.add_vertex (g : Graph) (vertex_id : Nat) : Graph :=
  { g with vertex_dict := dset g.vertex_dict vertex_id [] }

/-- Graph.add_edge (lines 82-99): look both vertices up (Python would raise
`KeyError` for an absent id — modelled as `none`), make vertex 2 a neighbor
of vertex 1, and the reverse when undirected. -/
def Graph.add_edge (g : Graph) (vertex_id1 vertex_id2 : Nat) : Option Graph :=
  match dlookup g.vertex_dict vertex_id1, dlookup g.vertex_dict vertex_id2 with
  | some _, some _ =>
    let d1 := dmodify g.vertex_dict vertex_id1 (fun adj => addNeighborU adj vertex_id2)
    let d2 := if g.is_directed = false then
        dmodify d1 vertex_id2 (fun adj => addNeighborU adj vertex_id1)
      else d1
    some { g with vertex_dict := d2 }
  | _, _ => none

/-- Edge test `v ∈ neighbors(u)` for the unweighted graph. -/
def Graph.hasEdge (g : Graph) (u v : Nat) : Bool :=
  match dlookup g.vertex_dict u with
  | some nbrs => lmem v nbrs
  | none => false

/-- Test that consecutive entries of an id sequence are joined by edges. -/
def Graph.chainOk (g : Graph) : List Nat → Bool
  | [] => true
  | [_] => true
  | a :: b :: rest => g.hasEdge a b && g.chainOk (b :: rest)

/-- Main loop of Graph.find_shortest_path (lines 175-190).  The source
takes the next vertex with `queue.pop()`, which removes from the *right*
end of the deque, so the traversal is depth-first even though the paths
are extended as in BFS. -/
def fspLoop (g : Graph) (target_id : Nat) :
    Nat → List Nat → List (Nat × List Nat) → Option (List (Nat × List Nat))
  | 0, _, _ => none
  | _ + 1, [], paths => some paths
  | fuel + 1, q :: qs, paths =>
    match (q :: qs).getLast? with
    | none => some paths
    | some cur =>
      let queue1 := (q :: qs).dropLast
      if cur = target_id then some paths
      else
        match dlookup g.vertex_dict cur, dlookup paths cur with
        | some nbrs, some current_path =>
          let st := nbrs.foldl
            (fun (st : List Nat × List (Nat × List Nat)) nb =>
              if dmem st.2 nb then st
              else (st.1 ++ [nb], dset st.2 nb (current_path ++ [nb])))
            (queue1, paths)
          fspLoop g target_id fuel st.1 st.2
        | _, _ => none

/-- Graph.find_shortest_path (lines 151-195).  `some none` is Python's
`return None` (target never discovered). -/
def Graph.find_shortest_path (g : Graph) (start_id target_id : Nat) :
    Option (Option (List Nat)) :=
  if !dmem g.vertex_dict start_id || !dmem g.vertex_dict target_id then none
  else
    let fuel := g.vertex_dict.foldl (fun a p => a + p.2.length) (g.vertex_dict.length + 2)
    match fspLoop g target_id fuel [start_id] [(start_id, [start_id])] with
    | none => none
    | some paths => some (dlookup paths target_id)

mutual

/-- Graph.dfs_for_cycles (lines 336-363): add the vertex to `visited` and
to `current_path`, walk the neighbors, then remove the vertex from the
path and return the last recursion result (`None`, falsy, when no branch
reported a cycle — modelled as `false`).  The global `visited` set is
never consulted while exploring. -/
def dfs_for_cycles (g : Graph) :
    Nat → Nat → List Nat → List Nat → Option (Bool × List Nat × List Nat)
  | 0, _, _, _ => none
  | fuel + 1, start_vertex, visited, current_path =>
    let visited := if lmem start_vertex visited then visited else visited ++ [start_vertex]
    let current_path := current_path ++ [start_vertex]
    match dlookup g.vertex_dict start_vertex with
    | none => none
    | some nbrs => dfsCyclesNbrs g fuel nbrs start_vertex visited current_path false

/-- Neighbor loop of `dfs_for_cycles`: a neighbor already on the current
path triggers `return True` immediately (leaving the path as it stands);
otherwise the recursion result *overwrites* `has_a_cycle`.  After the loop
the first occurrence of the vertex is removed from the path. -/
def dfsCyclesNbrs (g : Graph) :
    Nat → List Nat → Nat → List Nat → List Nat → Bool → Option (Bool × List Nat × List Nat)
  | 0, _, _, _, _, _ => none
  | _ + 1, [], start_vertex, visited, current_path, has_a_cycle =>
    some (has_a_cycle, visited, removeFirst current_path start_vertex)
  | fuel + 1, nb :: rest, start_vertex, visited, current_path, _has_a_cycle =>
    if lmem nb current_path then some (true, visited, current_path)
    else
      match dfs_for_cycles g fuel nb visited current_path with
      | none => none
      | some st => dfsCyclesNbrs g fuel rest start_vertex st.2.1 st.2.2 st.1

end

/-- Outer loop of Graph.contains_cycle (lines 371-379): DFS from every
vertex not yet visited, with a fresh `current_path`, stopping as soon as
one DFS reports a cycle. -/
def containsCycleLoop (g : Graph) (fuel : Nat) :
    List (Nat × List Nat) → List Nat → Option Bool
  | [], _ => some false
  | (v, _) :: rest, visited =>
    if lmem v visited then containsCycleLoop g fuel rest visited
    else
      match dfs_for_cycles g fuel v visited [] with
      | none => none
      | some st => if st.1 then some true else containsCycleLoop g fuel rest st.2.1

/-- Graph.contains_cycle (lines 366-381).  The fuel dominates the number
of recursive `dfs_for_cycles` calls of any terminating run. -/
def Graph.contains_cycle (g : Graph) : Option Bool :=
  containsCycleLoop g (4 ^ (g.vertex_dict.length + 2)) g.vertex_dict []

/-- Graph.greedy_coloring (lines 442-461): visit the vertices in
construction order; collect the already-assigned colors of the neighbors;
then `for color in possible_colors: if color not in neighbors_colors:
vertex_id_color[vertex_id] = color` — with no `break`, so every
non-conflicting color is written and the *last* one survives. -/
def Graph.greedy_coloring (g : Graph) : List (Nat × Nat) :=
  let possible_colors := List.range g.vertex_dict.length
  g.vertex_dict.foldl
    (fun colors p =>
      if dmem colors p.1 then colors
      else
        let neighbors_colors := p.2.foldl
          (fun acc nb =>
            match dlookup colors nb with
            | some c => acc ++ [c]
            | none => acc) []
        possible_colors.foldl
          (fun cs color => if lmem color neighbors_colors then cs else dset cs p.1 color)
          colors)
    []

/-! ### Fixtures

The worked fixture of the spec and of src/tests/test_weighted_graphs.py
(`make_large_graph`), built through the construction API with ids
A=0, B=1, C=2, D=3, E=4, F=5, G=6, H=7, J=8. -/

/-- Construction of the worked fixture exactly as `make_large_graph` does:
nine vertices A..H,J and the fourteen undirected weighted edges. -/
def fixtureBuild : Except String WeightedGraph := do
  let g : WeightedGraph := { vertex_dict := [], is_directed := false }
  let g := (((((((((g.add_vertex 0).add_vertex 1).add_vertex 2).add_vertex 3).add_vertex
    4).add_vertex 5).add_vertex 6).add_vertex 7).add_vertex 8)
  let g ← g.add_edge 0 1 4
  let g ← g.add_edge 0 2 8
  let g ← g.add_edge 1 2 11
  let g ← g.add_edge 1 3 8
  let g ← g.add_edge 2 5 1
  let g ← g.add_edge 2 4 4
  let g ← g.add_edge 3 4 2
  let g ← g.add_edge 3 6 7
  let g ← g.add_edge 3 7 4
  let g ← g.add_edge 4 5 6
  let g ← g.add_edge 5 7 2
  let g ← g.add_edge 6 7 14
  let g ← g.add_edge 6 8 9
  let g ← g.add_edge 7 8 10
  pure g

/-- The worked fixture as an explicit state (the result of `fixtureBuild`). -/
def fixtureGraph : WeightedGraph :=
  { vertex_dict :=
      [(0, [(1, 4), (2, 8)]),
       (1, [(0, 4), (2, 11), (3, 8)]),
       (2, [(0, 8), (1, 11), (5, 1), (4, 4)]),
       (3, [(1, 8), (4, 2), (6, 7), (7, 4)]),
       (4, [(2, 4), (3, 2), (5, 6)]),
       (5, [(2, 1), (4, 6), (7, 2)]),
       (6, [(3, 7), (7, 14), (8, 9)]),
       (7, [(3, 4), (5, 2), (6, 14), (8, 10)]),
       (8, [(6, 9), (7, 10)])],
    is_directed := false }

/-- MST edge set the spec claims for Kruskal on the fixture:
{(A,B,4), (A,C,8), (C,E,4), (C,F,1), (D,E,2), (D,G,7), (F,H,2), (G,J,9)}. -/
def kruskalClaimedMST : List (Nat × Nat × Int) :=
  [(0, 1, 4), (0, 2, 8), (2, 4, 4), (2, 5, 1), (3, 4, 2), (3, 6, 7), (5, 7, 2), (6, 8, 9)]

/-- Edge set `minimum_spanning_tree_kruskal` actually returns on the
fixture: the eight cheapest edges, cycles included, because `union` is
never invoked — {(A,B,4), (C,E,4), (C,F,1), (D,E,2), (D,G,7), (D,H,4),
(F,E,6), (F,H,2)}. -/
def kruskalActualOutput : List (Nat × Nat × Int) :=
  [(0, 1, 4), (2, 4, 4), (2, 5, 1), (3, 4, 2), (3, 6, 7), (3, 7, 4), (5, 4, 6), (5, 7, 2)]

/-- C4 failing input: directed graph A=0→C=2, A→D=3, D→E=4, E→B=1, C→B,
where the minimum edge count from A to B is 2 (A,C,B). -/
def spBuild : Option Graph := do
  let g : Graph := { vertex_dict := [], is_directed := true }
  let g := ((((g.add_vertex 0).add_vertex 1).add_vertex 2).add_vertex 3).add_vertex 4
  let g ← g.add_edge 0 2
  let g ← g.add_edge 0 3
  let g ← g.add_edge 3 4
  let g ← g.add_edge 4 1
  let g ← g.add_edge 2 1
  pure g

/-- The C4 failing graph as an explicit state (the result of `spBuild`). -/
def spGraph : Graph :=
  { vertex_dict := [(0, [2, 3]), (1, []), (2, [1]), (3, [4]), (4, [1])],
    is_directed := true }

/-- C5 failing input: the acyclic undirected graph with vertices A=0, B=1
and the single edge A–B. -/
def edgeBuild : Option Graph := do
  let g : Graph := { vertex_dict := [], is_directed := false }
  let g := (g.add_vertex 0).add_vertex 1
  g.add_edge 0 1

/-- The single-edge undirected graph as an explicit state. -/
def edgeGraph : Graph :=
  { vertex_dict := [(0, [1]), (1, [0])], is_directed := false }

/-- Second C5 input: directed graph A=0→B=1, A→C=2, B→D=3, D→B, which
contains the cycle B→D→B. -/
def twoCycleBuild : Option Graph := do
  let g : Graph := { vertex_dict := [], is_directed := true }
  let g := (((g.add_vertex 0).add_vertex 1).add_vertex 2).add_vertex 3
  let g ← g.add_edge 0 1
  let g ← g.add_edge 0 2
  let g ← g.add_edge 1 3
  let g ← g.add_edge 3 1
  pure g

/-- The directed B→D→B graph as an explicit state. -/
def twoCycleGraph : Graph :=
  { vertex_dict := [(0, [1, 2]), (1, [3]), (2, []), (3, [1])], is_directed := true }

/-- C6 failing input: two isolated vertices. -/
def isolatedPair : Graph :=
  { vertex_dict := [(0, []), (1, [])], is_directed := false }

/-- C7 failing input: undirected graph with vertices A=0, B=1 and one edge
of weight 5. -/
def wedgeBuild : Except String WeightedGraph := do
  let g : WeightedGraph := { vertex_dict := [], is_directed := false }
  let g := (g.add_vertex 0).add_vertex 1
  g.add_edge 0 1 5

/-- The weighted single-edge graph as an explicit state. -/
def wedgeGraph : WeightedGraph :=
  { vertex_dict := [(0, [(1, 5)]), (1, [(0, 5)])], is_directed := false }

/-- Neighbor test `v in u.neighbors_dict` for the weighted graph. -/
def WeightedGraph.hasNeighbor (g : WeightedGraph) (u v : Nat) : Bool :=
  match dlookup g.vertex_dict u with
  | some adj => dmem adj v
  | none => false

/-! ### BinaryMinHeap (src/graphs/binaryheap.py)

The items array is a `List Int` (the heap stores comparable items; every
use in the repository stores Python ints).  `_parent_index` is
`(i - 1) >> 1`, the children are `2i + 1` and `2i + 2`. -/

namespace BinaryMinHeap

/-- Read `items[i]` (the default is never consulted: every access in the
source is guarded by an index check). -/
def nth (l : List Int) (i : Nat) : Int :=
  l.getD i 0

/-- Python's simultaneous swap `items[i], items[j] = items[j], items[i]`. -/
def swapAt (l : List Int) (i j : Nat) : List Int :=
  (l.set i (nth l j)).set j (nth l i)

/-- Child chosen by `_bubble_down` (lines 137-141): the left child, unless
the right child exists and is strictly smaller. -/
def chooseChild (l : List Int) (index : Nat) : Nat :=
  if 2 * index + 2 ≤ l.length - 1 ∧ nth l (2 * index + 2) < nth l (2 * index + 1)
  then 2 * index + 2 else 2 * index + 1

/-- BinaryMinHeap._bubble_up (lines 96-118): at the root stop; swap with
the parent when the item is smaller; then recurse at the parent position
only when the parent is not the root and the item is still smaller than
its new parent.  An out-of-range index raises `IndexError` in the source;
that branch is unreachable from the heap operations and is modelled as the
identity. -/
def bubble_up (l : List Int) (index : Nat) : List Int :=
  if index = 0 then l
  else if l.length ≤ index then l
  else if nth l index < nth l ((index - 1) / 2) then
    if 0 < (index - 1) / 2 then
      if nth l index < nth (swapAt l index ((index - 1) / 2)) (((index - 1) / 2 - 1) / 2)
      then bubble_up (swapAt l index ((index - 1) / 2)) ((index - 1) / 2)
      else swapAt l index ((index - 1) / 2)
    else swapAt l index ((index - 1) / 2)
  else l
termination_by index
decreasing_by omega

/-- BinaryMinHeap._bubble_down (lines 120-146): stop at a leaf; otherwise
compare with the smaller child and swap-and-recurse while out of order
(`item > child_item`).  The out-of-range guard is modelled as for
`bubble_up`. -/
def bubble_down (l : List Int) (index : Nat) : List Int :=
  if l.length ≤ index then l
  else if l.length - 1 < 2 * index + 1 then l
  else if nth l (chooseChild l index) < nth l index then
    bubble_down (swapAt l index (chooseChild l index)) (chooseChild l index)
  else l
termination_by l.length - index
decreasing_by
  simp only [swapAt, List.length_set]
  have h1 : index < chooseChild l index := by
    unfold chooseChild; split <;> omega
  omega

/-- BinaryMinHeap.insert (lines 35-45): append, then bubble up from the
last index when more than one item is stored. -/
def insert (l : List Int) (item : Int) : List Int :=
  if 1 < (l ++ [item]).length then bubble_up (l ++ [item]) ((l ++ [item]).length - 1)
  else l ++ [item]

/-- BinaryMinHeap.delete_min (lines 55-74): `ValueError` on the empty
heap; pop the only item of a singleton; otherwise move the last item to
the root and bubble down.  Returns the removed minimum and the new items
array. -/
def delete_min (l : List Int) : Option (Int × List Int) :=
  match l with
  | [] => none
  | [x] => some (x, [])
  | x :: y :: rest =>
    let last_item := (x :: y :: rest).getLast (by simp)
    let l2 := ((x :: y :: rest).dropLast).set 0 last_item
    some (x, if 1 < l2.length then bubble_down l2 0 else l2)

/-- BinaryMinHeap.replace_min (lines 76-94): `ValueError` on the empty
heap; otherwise overwrite the root and bubble down.  Returns the removed
minimum and the new items array. -/
def replace_min (l : List Int) (item : Int) : Option (Int × List Int) :=
  match l with
  | [] => none
  | x :: rest =>
    some (x, if 1 < (x :: rest).length then bubble_down ((x :: rest).set 0 item) 0
      else (x :: rest).set 0 item)

/-- Invariant of the heap: every parent is at most either child, phrased
from the child's side (`items[(j-1)/2] <= items[j]` for every valid
non-root index `j`). -/
def isHeap (l : List Int) : Prop :=
  ∀ j, j < l.length → 0 < j → nth l ((j - 1) / 2) ≤ nth l j

instance (l : List Int) : Decidable (isHeap l) := by
  unfold isHeap; exact Nat.decidableBallLT _ _

/-- Heap property weakened at `i` for the upward pass: every non-root
index other than `i` respects its parent, and `i`'s parent already bounds
`i`'s children (the element moving up is out of order only with its own
parent). -/
def upInv (l : List Int) (i : Nat) : Prop :=
  (∀ j, j < l.length → 0 < j → j ≠ i → nth l ((j - 1) / 2) ≤ nth l j) ∧
  (0 < i → ∀ c, c < l.length → (c - 1) / 2 = i → nth l ((i - 1) / 2) ≤ nth l c)

/-- Heap property weakened at `i` for the downward pass: every edge whose
parent is not `i` is respected, and `i`'s parent already bounds `i`'s
children. -/
def downInv (l : List Int) (i : Nat) : Prop :=
  (∀ j, j < l.length → 0 < j → (j - 1) / 2 ≠ i → nth l ((j - 1) / 2) ≤ nth l j) ∧
  (0 < i → ∀ c, c < l.length → (c - 1) / 2 = i → nth l ((i - 1) / 2) ≤ nth l c)

end BinaryMinHeap

/-! ### Claims C1-C7: the algorithms diverge from the spec on the
worked inputs. -/

/-- C1: on the worked fixture, `minimum_spanning_tree_kruskal` does *not*
return the claimed MST {(A,B,4), (A,C,8), (C,E,4), (C,F,1), (D,E,2),
(D,G,7), (F,H,2), (G,J,9)}: because `union` is never called, every
Union-Find query sees singleton groups and the code returns the eight
cheapest edges outright, {(A,B,4), (C,E,4), (C,F,1), (D,E,2), (D,G,7),
(D,H,4), (F,E,6), (F,H,2)}. -/
theorem kruskal_fixture_diverges :
    fixtureBuild = Except.ok fixtureGraph ∧
    fixtureGraph.minimum_spanning_tree_kruskal = some kruskalActualOutput ∧
    fixtureGraph.minimum_spanning_tree_kruskal ≠ some kruskalClaimedMST := by
  refine ⟨rfl, by decide, by decide⟩

/-- C2: on the worked fixture, `minimum_spanning_tree_prim` returns 10,
not the MST total weight 37: the running total `weight` is shadowed by
both scan loops, so the value returned is an accumulation of leftover
loop variables. -/
theorem prim_fixture_diverges :
    fixtureBuild = Except.ok fixtureGraph ∧
    fixtureGraph.minimum_spanning_tree_prim = some (PVal.int 10) ∧
    fixtureGraph.minimum_spanning_tree_prim ≠ some (PVal.int 37) := by
  refine ⟨rfl, by decide, by decide⟩

/-- C3: on the worked fixture, `find_shortest_path(A, J)` returns Python
`None`, not 21: each loop iteration deletes `vertex_to_weight[vertex]`,
the *last* dict key, instead of `min_vertex`, so the extraction never
reaches J and the loop drains the dict and falls through to
`return None`. -/
theorem dijkstra_fixture_diverges :
    fixtureBuild = Except.ok fixtureGraph ∧
    fixtureGraph.find_shortest_path 0 8 = some none ∧
    fixtureGraph.find_shortest_path 0 8 ≠ some (some (PVal.int 21)) := by
  refine ⟨rfl, by decide, by decide⟩

/-- C4: `Graph.find_shortest_path` does not return a minimum-edge-count
path: on `spGraph` it returns A,D,E,B (three edges) although A,C,B (two
edges) is a path from A to B, because `queue.pop()` removes from the
right end of the deque, making the search depth-first. -/
theorem shortest_path_unweighted_diverges :
    spBuild = some spGraph ∧
    spGraph.find_shortest_path 0 1 = some (some [0, 3, 4, 1]) ∧
    spGraph.chainOk [0, 2, 1] = true ∧
    ([0, 3, 4, 1] : List Nat).length - 1 ≠ ([0, 2, 1] : List Nat).length - 1 := by
  refine ⟨by decide, by decide, by decide, by decide⟩

/-- C5: `contains_cycle` answers `True` on the acyclic undirected graph
with the single edge A–B (the traversal walks the same edge back and
finds the parent on the current path), and answers `False` on the
directed graph that contains the cycle B→D→B (the first DFS visits the
cycle, reports it, but a later sibling overwrites `has_a_cycle`). -/
theorem contains_cycle_diverges :
    edgeBuild = some edgeGraph ∧
    edgeGraph.contains_cycle = some true ∧
    twoCycleBuild = some twoCycleGraph ∧
    (twoCycleGraph.hasEdge 1 3 && twoCycleGraph.hasEdge 3 1) = true ∧
    twoCycleGraph.contains_cycle = some false := by
  refine ⟨by decide, by decide, by decide, by decide, by decide⟩

/-- C6: `greedy_coloring` does not assign the smallest free color: on two
isolated vertices it colors both with 1 (the last color of
`range(len(vertex_dict))` not used by a neighbor), not 0, because the
inner color loop has no `break` and keeps overwriting the assignment. -/
theorem greedy_coloring_diverges :
    isolatedPair.greedy_coloring = [(0, 1), (1, 1)] ∧
    dlookup isolatedPair.greedy_coloring 0 ≠ some 0 := by
  refine ⟨by decide, by decide⟩

/-- C7: `floyd_warshall` never seeds the matrix with edge weights (the
seeding loop's body is `pass`), so on the graph with the single undirected
edge (A, B, 5) the returned entry dist[A][B] is infinity, not at most 5;
only the diagonal is finite. -/
theorem floyd_warshall_diverges :
    wedgeBuild = Except.ok wedgeGraph ∧
    dlookup wedgeGraph.vertex_dict 0 = some [(1, 5)] ∧
    fwEntry wedgeGraph.floyd_warshall 0 1 = PVal.inf ∧
    fwEntry wedgeGraph.floyd_warshall 0 0 = PVal.int 0 := by
  refine ⟨rfl, by decide, by decide, by decide⟩

/-! ### Claims C8 and C10: behavior of the construction API on duplicates. -/

/-- Storing under a key rewrites exactly that key's entry: lookups answer
the new value at `k` and are unchanged elsewhere. -/
theorem dlookup_dset {β : Type} (d : List (Nat × β)) (k q : Nat) (v : β) :
    dlookup (dset d k v) q = if q = k then some v else dlookup d q := by
  induction d with
  | nil =>
    simp only [dset, dlookup]
    by_cases h : q = k
    · subst h; simp
    · rw [if_neg (fun h2 => h h2.symm), if_neg h]
  | cons hd tl ih =>
    obtain ⟨a, b⟩ := hd
    simp only [dset]
    by_cases hak : a = k
    · subst hak
      simp only [if_pos rfl, dlookup]
      by_cases haq : a = q
      · subst haq; simp
      · rw [if_neg haq, if_neg haq, if_neg (fun h2 => haq h2.symm)]
    · simp only [if_neg hak, dlookup]
      by_cases haq : a = q
      · subst haq
        rw [if_pos rfl, if_pos rfl, if_neg hak]
      · rw [if_neg haq, if_neg haq, ih]

/-- Storing under a key that is already present keeps the key sequence. -/
theorem dkeys_dset_of_mem {β : Type} (d : List (Nat × β)) (k : Nat) (v : β)
    (h : dmem d k = true) : dkeys (dset d k v) = dkeys d := by
  induction d with
  | nil => simp [dmem, dlookup] at h
  | cons hd tl ih =>
    obtain ⟨a, b⟩ := hd
    by_cases hak : a = k
    · simp [dset, dkeys, hak]
    · simp [dmem, dlookup, hak] at h
      simp [dset, dkeys, hak]
      exact ih h

/-- An in-place modification whose function fixes the stored value is the
identity on the dict. -/
theorem dmodify_eq_self {β : Type} (d : List (Nat × β)) (k : Nat) (f : β → β)
    (h : ∀ val, dlookup d k = some val → f val = val) : dmodify d k f = d := by
  induction d with
  | nil => rfl
  | cons hd tl ih =>
    obtain ⟨a, b⟩ := hd
    by_cases hak : a = k
    · have hb : f b = b := h b (by simp [dlookup, hak])
      simp [dmodify, hak, hb]
    · have := fun val hv => h val (by simpa [dlookup, hak] using hv)
      simp [dmodify, hak, ih this]

/-- Adding an already-present neighbor is a no-op (the second weight is
discarded). -/
theorem add_neighbor_of_mem (adj : List (Nat × Int)) (v : Nat) (w : Int)
    (h : dmem adj v = true) : add_neighbor adj v w = adj := by
  simp [add_neighbor, h]

/-- C8, the claim as stated is false: re-adding the id A to the weighted
graph that already holds A (with B as its neighbor) raises no error — the
function returns a graph — and does not leave the graph unmodified: A's
adjacency is reset to the empty dict. -/
theorem add_vertex_duplicate_counterexample :
    WeightedGraph.add_vertex wedgeGraph 0 ≠ wedgeGraph ∧
    WeightedGraph.add_vertex wedgeGraph 0 =
      { vertex_dict := [(0, []), (1, [(0, 5)])], is_directed := false } := by
  refine ⟨by decide, by decide⟩

/-- C8 (amended): calling add_vertex on an id that is already present
raises no error and overwrites the stored vertex with a fresh one with
empty adjacency; the key order, every other vertex's entry, and the
directedness flag are unchanged.  This holds for the weighted and the
unweighted class alike (both bodies are the unconditional
`vertex_dict[vertex_id] = new_vertex`). -/
theorem add_vertex_duplicate_overwrites (gw : WeightedGraph) (gu : Graph) (X : Nat)
    (hw : dmem gw.vertex_dict X = true) (hu : dmem gu.vertex_dict X = true) :
    (dkeys (gw.add_vertex X).vertex_dict = dkeys gw.vertex_dict ∧
      (gw.add_vertex X).is_directed = gw.is_directed ∧
      ∀ Y, dlookup (gw.add_vertex X).vertex_dict Y =
        if Y = X then some [] else dlookup gw.vertex_dict Y) ∧
    (dkeys (gu.add_vertex X).vertex_dict = dkeys gu.vertex_dict ∧
      (gu.add_vertex X).is_directed = gu.is_directed ∧
      ∀ Y, dlookup (gu.add_vertex X).vertex_dict Y =
        if Y = X then some [] else dlookup gu.vertex_dict Y) := by
  refine ⟨⟨dkeys_dset_of_mem _ _ _ hw, rfl, fun Y => dlookup_dset _ _ _ _⟩,
    ⟨dkeys_dset_of_mem _ _ _ hu, rfl, fun Y => dlookup_dset _ _ _ _⟩⟩

/-- Witness for C8 (amended) at the weighted single-edge graph and the
unweighted single-edge graph, duplicating id A=0. -/
theorem add_vertex_duplicate_overwrites_witness :
    (dkeys (wedgeGraph.add_vertex 0).vertex_dict = dkeys wedgeGraph.vertex_dict ∧
      (wedgeGraph.add_vertex 0).is_directed = wedgeGraph.is_directed ∧
      ∀ Y, dlookup (wedgeGraph.add_vertex 0).vertex_dict Y =
        if Y = 0 then some [] else dlookup wedgeGraph.vertex_dict Y) ∧
    (dkeys (edgeGraph.add_vertex 0).vertex_dict = dkeys edgeGraph.vertex_dict ∧
      (edgeGraph.add_vertex 0).is_directed = edgeGraph.is_directed ∧
      ∀ Y, dlookup (edgeGraph.add_vertex 0).vertex_dict Y =
        if Y = 0 then some [] else dlookup edgeGraph.vertex_dict Y) :=
  add_vertex_duplicate_overwrites wedgeGraph edgeGraph 0 (by decide) (by decide)

/-- C10: when v is already a neighbor of u (and, on an undirected graph, u
already a neighbor of v, as the construction API guarantees), add_edge
with any second weight returns the graph unchanged and raises no error:
the first weight wins. -/
theorem add_edge_existing_neighbor_noop (g : WeightedGraph) (u v : Nat) (w2 : Int)
    (hu : dmem g.vertex_dict u = true) (hv : dmem g.vertex_dict v = true)
    (huv : g.hasNeighbor u v = true)
    (hvu : g.is_directed = false → g.hasNeighbor v u = true) :
    g.add_edge u v w2 = Except.ok g := by
  have hcond : (!dmem g.vertex_dict u || !dmem g.vertex_dict v) = false := by
    simp [hu, hv]
  have hmod1 : dmodify g.vertex_dict u (fun adj => add_neighbor adj v w2) = g.vertex_dict := by
    apply dmodify_eq_self
    intro val hval
    apply add_neighbor_of_mem
    unfold WeightedGraph.hasNeighbor at huv
    rw [hval] at huv
    exact huv
  have hmod2 : g.is_directed = false →
      dmodify g.vertex_dict v (fun adj => add_neighbor adj u w2) = g.vertex_dict := by
    intro hdir
    apply dmodify_eq_self
    intro val hval
    apply add_neighbor_of_mem
    have := hvu hdir
    unfold WeightedGraph.hasNeighbor at this
    rw [hval] at this
    exact this
  simp only [WeightedGraph.add_edge, hcond, Bool.false_eq_true, if_false, hmod1]
  by_cases hdir : g.is_directed = false
  · rw [if_pos hdir, hmod2 hdir]
  · rw [if_neg hdir]

/-- Witness for C10: re-adding the fixture edge A–B with weight 99 leaves
the fixture graph unchanged. -/
theorem add_edge_existing_neighbor_noop_witness :
    fixtureGraph.add_edge 0 1 99 = Except.ok fixtureGraph :=
  add_edge_existing_neighbor_noop fixtureGraph 0 1 99 (by decide) (by decide)
    (by decide) (fun _ => by decide)

/-! ### Claim C9: the heap operations preserve the min-heap invariant. -/

namespace BinaryMinHeap

/-- Reading a list updated at a valid index. -/
theorem nth_set {l : List Int} {i : Nat} (x : Int) (j : Nat) (hi : i < l.length) :
    nth (l.set i x) j = if j = i then x else nth l j := by
  induction l generalizing i j with
  | nil => simp at hi
  | cons a tl ih =>
    cases i with
    | zero =>
      cases j with
      | zero => simp [nth]
      | succ j => simp [nth]
    | succ i =>
      cases j with
      | zero => simp [nth]
      | succ j =>
        have hi2 : i < tl.length := by simpa using hi
        simp only [List.set_cons_succ, nth, List.getD_cons_succ]
        have := ih j hi2
        simp only [nth] at this
        rw [this]
        by_cases h : j = i
        · rw [if_pos h, if_pos (by omega)]
        · rw [if_neg h, if_neg (by omega)]

/-- Swapping preserves the length. -/
theorem length_swapAt (l : List Int) (i j : Nat) : (swapAt l i j).length = l.length := by
  simp [swapAt]

/-- Reading a swapped list. -/
theorem nth_swapAt {l : List Int} {i j : Nat} (hi : i < l.length) (hj : j < l.length)
    (_hij : i ≠ j) (k : Nat) :
    nth (swapAt l i j) k = if k = j then nth l i else if k = i then nth l j else nth l k := by
  unfold swapAt
  rw [nth_set (nth l i) k (by simpa using hj), nth_set (nth l j) k hi]

/-- Appending does not change the entries of the prefix. -/
theorem nth_append_left {l : List Int} {j : Nat} (x : Int) (h : j < l.length) :
    nth (l ++ [x]) j = nth l j := by
  induction l generalizing j with
  | nil => simp at h
  | cons a tl ih =>
    cases j with
    | zero => simp [nth]
    | succ j =>
      simp only [List.cons_append, nth, List.getD_cons_succ]
      exact ih (by simpa using h)

/-- Reading the appended entry. -/
theorem nth_append_right (l : List Int) (x : Int) : nth (l ++ [x]) l.length = x := by
  simp [nth]

/-- `dropLast` does not change the remaining entries. -/
theorem nth_dropLast {l : List Int} {j : Nat} (h : j < l.length - 1) :
    nth l.dropLast j = nth l j := by
  induction l generalizing j with
  | nil => simp at h
  | cons a tl ih =>
    cases tl with
    | nil => simp at h
    | cons b tl2 =>
      cases j with
      | zero => simp [nth, List.dropLast]
      | succ j =>
        simp only [List.dropLast, nth, List.getD_cons_succ]
        exact ih (by simp at h ⊢; omega)

/-- Lists with at most one element are heaps. -/
theorem isHeap_short {l : List Int} (h : l.length ≤ 1) : isHeap l := by
  intro j hj hj0
  omega

/-- After the swap of `_bubble_up`, the array is a heap provided the
recursion guard does not fire (the item is bounded below by its new
parent when that parent exists). -/
theorem swap_up_isHeap {l : List Int} {i : Nat} (hi : i < l.length) (h0 : i ≠ 0)
    (hinv : upInv l i) (hswap : nth l i < nth l ((i - 1) / 2))
    (hgp : 0 < (i - 1) / 2 → nth l (((i - 1) / 2 - 1) / 2) ≤ nth l i) :
    isHeap (swapAt l i ((i - 1) / 2)) := by
  have hpl : (i - 1) / 2 < l.length := by omega
  have hip : i ≠ (i - 1) / 2 := by omega
  intro j hj hj0
  rw [length_swapAt] at hj
  rw [nth_swapAt hi hpl hip, nth_swapAt hi hpl hip]
  by_cases hjp : j = (i - 1) / 2
  · subst hjp
    rw [if_neg (by omega : ¬ ((i - 1) / 2 - 1) / 2 = (i - 1) / 2),
      if_neg (by omega : ¬ ((i - 1) / 2 - 1) / 2 = i), if_pos rfl]
    exact hgp hj0
  · by_cases hji : j = i
    · subst hji
      simp only [if_pos rfl, if_neg hjp]
      exact le_of_lt hswap
    · rw [if_neg hjp, if_neg hji]
      by_cases hqp : (j - 1) / 2 = (i - 1) / 2
      · rw [if_pos hqp]
        exact le_trans (le_of_lt hswap) (by
          have := hinv.1 j hj hj0 hji
          rwa [hqp] at this)
      · rw [if_neg hqp]
        by_cases hqi : (j - 1) / 2 = i
        · rw [if_pos hqi]
          exact hinv.2 (by omega) j hj hqi
        · rw [if_neg hqi]
          exact hinv.1 j hj hj0 hji

/-- After the swap of `_bubble_up`, the weakened invariant holds one level
up, justifying the recursive call. -/
theorem swap_upInv {l : List Int} {i : Nat} (hi : i < l.length) (h0 : i ≠ 0)
    (hinv : upInv l i) (hswap : nth l i < nth l ((i - 1) / 2))
    (hp0 : 0 < (i - 1) / 2) :
    upInv (swapAt l i ((i - 1) / 2)) ((i - 1) / 2) := by
  have hpl : (i - 1) / 2 < l.length := by omega
  have hip : i ≠ (i - 1) / 2 := by omega
  constructor
  · intro j hj hj0 hjp
    rw [length_swapAt] at hj
    rw [nth_swapAt hi hpl hip, nth_swapAt hi hpl hip]
    rw [if_neg hjp]
    by_cases hji : j = i
    · subst hji
      simp only [if_pos rfl]
      exact le_of_lt hswap
    · rw [if_neg hji]
      by_cases hqp : (j - 1) / 2 = (i - 1) / 2
      · rw [if_pos hqp]
        exact le_trans (le_of_lt hswap) (by
          have := hinv.1 j hj hj0 hji
          rwa [hqp] at this)
      · rw [if_neg hqp]
        by_cases hqi : (j - 1) / 2 = i
        · rw [if_pos hqi]
          exact hinv.2 (by omega) j hj hqi
        · rw [if_neg hqi]
          exact hinv.1 j hj hj0 hji
  · intro hp0b c hc hcp
    rw [length_swapAt] at hc
    rw [nth_swapAt hi hpl hip, nth_swapAt hi hpl hip]
    rw [if_neg (by omega : ¬ ((i - 1) / 2 - 1) / 2 = (i - 1) / 2),
      if_neg (by omega : ¬ ((i - 1) / 2 - 1) / 2 = i),
      if_neg (by omega : ¬ c = (i - 1) / 2)]
    by_cases hci : c = i
    · rw [if_pos hci]
      exact hinv.1 _ hpl hp0 hip.symm
    · rw [if_neg hci]
      exact le_trans (hinv.1 _ hpl hp0 hip.symm) (by
        have := hinv.1 c hc (by omega) hci
        rwa [hcp] at this)

/-- _bubble_up restores the heap invariant from the weakened one. -/
theorem bubble_up_isHeap (i : Nat) : ∀ (l : List Int), i < l.length → upInv l i →
    isHeap (bubble_up l i) := by
  induction i using Nat.strong_induction_on with
  | _ i ih =>
    intro l hi hinv
    unfold bubble_up
    split_ifs with h0 hlen hswap hp0 hrec
    · intro j hj hj0
      exact hinv.1 j hj hj0 (by omega)
    · omega
    · -- recursive call at the parent index
      exact ih ((i - 1) / 2) (by omega) _ (by rw [length_swapAt]; omega)
        (swap_upInv hi h0 hinv hswap hp0)
    · -- stop: the item is not smaller than its new parent
      apply swap_up_isHeap hi h0 hinv hswap
      intro hp0b
      have hnpi : nth (swapAt l i ((i - 1) / 2)) (((i - 1) / 2 - 1) / 2) =
          nth l (((i - 1) / 2 - 1) / 2) := by
        rw [nth_swapAt hi (by omega) (by omega), if_neg (by omega), if_neg (by omega)]
      rw [hnpi] at hrec
      exact le_of_not_lt hrec
    · -- stop: the parent is the root
      exact swap_up_isHeap hi h0 hinv hswap (fun h => absurd h hp0)
    · -- no swap: already a heap
      intro j hj hj0
      by_cases hji : j = i
      · subst hji
        exact le_of_not_lt hswap
      · exact hinv.1 j hj hj0 hji

/-- The chosen child is below the parent position. -/
theorem chooseChild_gt (l : List Int) (i : Nat) : i < chooseChild l i := by
  unfold chooseChild; split <;> omega

/-- The chosen child is a valid index when the left child is. -/
theorem chooseChild_le_last (l : List Int) (i : Nat)
    (h2 : ¬ (l.length - 1 < 2 * i + 1)) : chooseChild l i ≤ l.length - 1 := by
  unfold chooseChild
  split
  case isTrue h => exact h.1
  case isFalse h => omega

/-- The parent of the chosen child is the parent position. -/
theorem chooseChild_parent (l : List Int) (i : Nat) : (chooseChild l i - 1) / 2 = i := by
  unfold chooseChild; split <;> omega

/-- The chosen child holds the smaller of the two child values: it bounds
every in-range child of `i`. -/
theorem chooseChild_min (l : List Int) (i j : Nat) (hj : (j - 1) / 2 = i)
    (hj0 : 0 < j) (hjl : j < l.length) : nth l (chooseChild l i) ≤ nth l j := by
  unfold chooseChild
  split
  case isTrue h =>
    rcases (by omega : j = 2 * i + 1 ∨ j = 2 * i + 2) with hj2 | hj2 <;> subst hj2
    · exact le_of_lt h.2
    · exact le_refl _
  case isFalse h =>
    rcases (by omega : j = 2 * i + 1 ∨ j = 2 * i + 2) with hj2 | hj2 <;> subst hj2
    · exact le_refl _
    · exact le_of_not_lt (fun hlt => h ⟨by omega, hlt⟩)

/-- After the swap of `_bubble_down`, the weakened invariant holds at the
child position, justifying the recursive call. -/
theorem swap_downInv {l : List Int} {i : Nat} (h1 : i < l.length)
    (h2 : ¬ (l.length - 1 < 2 * i + 1)) (hinv : downInv l i)
    (h3 : nth l (chooseChild l i) < nth l i) :
    downInv (swapAt l i (chooseChild l i)) (chooseChild l i) := by
  have hci := chooseChild_gt l i
  have hcl : chooseChild l i < l.length := by
    have := chooseChild_le_last l i h2; omega
  have hcp := chooseChild_parent l i
  have hic : i ≠ chooseChild l i := by omega
  constructor
  · intro j hj hj0 hjq
    rw [length_swapAt] at hj
    rw [nth_swapAt h1 hcl hic, nth_swapAt h1 hcl hic]
    rw [if_neg hjq]
    by_cases hjc : j = chooseChild l i
    · subst hjc
      rw [if_pos hcp, if_pos rfl]
      exact le_of_lt h3
    · by_cases hji : j = i
      · rw [hji, if_neg (by omega : ¬ (i - 1) / 2 = i), if_neg hic, if_pos rfl]
        exact hinv.2 (by omega) _ hcl hcp
      · rw [if_neg hjc, if_neg hji]
        by_cases hqi : (j - 1) / 2 = i
        · rw [if_pos hqi]
          exact chooseChild_min l i j hqi hj0 hj
        · rw [if_neg hqi]
          exact hinv.1 j hj hj0 hqi
  · intro hc0 c hc hcq
    rw [length_swapAt] at hc
    rw [nth_swapAt h1 hcl hic, nth_swapAt h1 hcl hic]
    rw [if_neg (by omega : ¬ (chooseChild l i - 1) / 2 = chooseChild l i),
      if_pos hcp, if_neg (by omega : ¬ c = chooseChild l i),
      if_neg (by omega : ¬ c = i)]
    have hone := hinv.1 c hc (by omega) (by omega)
    rwa [hcq] at hone

/-- When `_bubble_down` stops because the item is not larger than its
smaller child, the array is a heap. -/
theorem down_stop_isHeap {l : List Int} {i : Nat} (_h1 : i < l.length)
    (_h2 : ¬ (l.length - 1 < 2 * i + 1)) (hinv : downInv l i)
    (h3 : ¬ nth l (chooseChild l i) < nth l i) : isHeap l := by
  intro j hj hj0
  by_cases hq : (j - 1) / 2 = i
  · calc nth l ((j - 1) / 2) = nth l i := by rw [hq]
    _ ≤ nth l (chooseChild l i) := le_of_not_lt h3
    _ ≤ nth l j := chooseChild_min l i j hq hj0 hj
  · exact hinv.1 j hj hj0 hq

/-- When `i` has no children in range, the weakened invariant is already
the heap invariant. -/
theorem downInv_isHeap_of_leaf {l : List Int} {i : Nat}
    (h2 : l.length - 1 < 2 * i + 1 ∨ l.length ≤ i) (hinv : downInv l i) : isHeap l := by
  intro j hj hj0
  exact hinv.1 j hj hj0 (by omega)

/-- _bubble_down restores the heap invariant from the weakened one
(induction on the distance from the end of the array). -/
theorem bubble_down_isHeap_aux (n : Nat) : ∀ (l : List Int) (i : Nat),
    l.length - i ≤ n → downInv l i → isHeap (bubble_down l i) := by
  induction n with
  | zero =>
    intro l i hn hinv
    unfold bubble_down
    rw [if_pos (by omega)]
    exact downInv_isHeap_of_leaf (Or.inr (by omega)) hinv
  | succ n ihn =>
    intro l i hn hinv
    unfold bubble_down
    split_ifs with ha hb hc
    · exact downInv_isHeap_of_leaf (Or.inr ha) hinv
    · exact downInv_isHeap_of_leaf (Or.inl hb) hinv
    · apply ihn
      · rw [length_swapAt]
        have := chooseChild_gt l i
        omega
      · exact swap_downInv (by omega) hb hinv hc
    · exact down_stop_isHeap (by omega) hb hinv hc

/-- _bubble_down restores the heap invariant from the weakened one. -/
theorem bubble_down_isHeap (l : List Int) (i : Nat) (hinv : downInv l i) :
    isHeap (bubble_down l i) :=
  bubble_down_isHeap_aux l.length l i (by omega) hinv

/-- Inserting into a heap yields a heap. -/
theorem insert_isHeap {l : List Int} (x : Int) (h : isHeap l) : isHeap (insert l x) := by
  unfold insert
  have hlx : (l ++ [x]).length = l.length + 1 := by simp
  split_ifs with hlen
  · apply bubble_up_isHeap
    · omega
    · constructor
      · intro j hj hj0 hji
        rw [hlx] at hj
        have hjl : j < l.length := by omega
        rw [nth_append_left x hjl, nth_append_left x (by omega)]
        exact h j hjl hj0
      · intro hi0 c hc hcq
        rw [hlx] at hc
        omega
  · exact isHeap_short (by omega)

/-- The entries of the array built by `delete_min` (last element moved to
the root) agree with the original array away from the root. -/
theorem nth_delete_rebuild {l : List Int} {k : Nat} (a : Int) (hl : 1 < l.length)
    (hk0 : k ≠ 0) (hkl : k < l.length - 1) :
    nth ((l.dropLast).set 0 a) k = nth l k := by
  rw [nth_set a k (by simp; omega), if_neg hk0, nth_dropLast hkl]

/-- Deleting the minimum from a heap yields a heap. -/
theorem delete_min_isHeap {l : List Int} (h : isHeap l) :
    ∀ m l2, delete_min l = some (m, l2) → isHeap l2 := by
  intro m l2 hdm
  cases l with
  | nil => simp [delete_min] at hdm
  | cons x tl =>
    cases tl with
    | nil =>
      simp [delete_min] at hdm
      rw [hdm.2]
      exact isHeap_short (by simp)
    | cons y rest =>
      simp only [delete_min, Option.some.injEq, Prod.mk.injEq] at hdm
      rw [← hdm.2]
      have hlen : (x :: y :: rest).length = rest.length + 2 := by simp
      have hlen2 : (((x :: y :: rest).dropLast).set 0
          ((x :: y :: rest).getLast (by simp))).length = rest.length + 1 := by
        simp
      split_ifs with hb
    -- the continuation is below the if on the rebuilt array's length
      · apply bubble_down_isHeap
        constructor
        · intro j hj hj0 hjq
          rw [hlen2] at hj
          have e1 : nth (((x :: y :: rest).dropLast).set 0
              ((x :: y :: rest).getLast (by simp))) ((j - 1) / 2)
              = nth (x :: y :: rest) ((j - 1) / 2) :=
            nth_delete_rebuild _ (by rw [hlen]; omega) hjq (by rw [hlen]; omega)
          have e2 : nth (((x :: y :: rest).dropLast).set 0
              ((x :: y :: rest).getLast (by simp))) j
              = nth (x :: y :: rest) j :=
            nth_delete_rebuild _ (by rw [hlen]; omega) (by omega) (by rw [hlen]; omega)
          rw [e1, e2]
          exact h j (by rw [hlen]; omega) hj0
        · intro h0
          omega
      · exact isHeap_short (by omega)

/-- Replacing the minimum of a heap yields a heap. -/
theorem replace_min_isHeap {l : List Int} (x : Int) (h : isHeap l) :
    ∀ m l2, replace_min l x = some (m, l2) → isHeap l2 := by
  intro m l2 hrm
  cases l with
  | nil => simp [replace_min] at hrm
  | cons a tl =>
    simp only [replace_min, Option.some.injEq, Prod.mk.injEq] at hrm
    rw [← hrm.2]
    split_ifs with hb
    · apply bubble_down_isHeap
      constructor
      · intro j hj hj0 hjq
        rw [List.length_set] at hj
        rw [nth_set x j (by simp), if_neg (by omega),
          nth_set x ((j - 1) / 2) (by simp), if_neg hjq]
        exact h j hj hj0
      · intro h0
        omega
    · refine isHeap_short ?_
      rw [List.length_set]
      omega

end BinaryMinHeap

/-- C9: on every items array satisfying the min-heap property, `insert`,
`delete_min` (on a non-empty heap) and `replace_min` (on a non-empty
heap) leave the items array again satisfying the property. -/
theorem heap_operations_preserve_invariant (l : List Int) (x : Int)
    (h : BinaryMinHeap.isHeap l) :
    BinaryMinHeap.isHeap (BinaryMinHeap.insert l x) ∧
    (∀ m l2, BinaryMinHeap.delete_min l = some (m, l2) → BinaryMinHeap.isHeap l2) ∧
    (∀ m l2, BinaryMinHeap.replace_min l x = some (m, l2) → BinaryMinHeap.isHeap l2) :=
  ⟨BinaryMinHeap.insert_isHeap x h, BinaryMinHeap.delete_min_isHeap h,
    BinaryMinHeap.replace_min_isHeap x h⟩

/-- Witness for C9 at the concrete heap [3, 9, 5, 25] with new item 4. -/
theorem heap_operations_preserve_invariant_witness :
    BinaryMinHeap.isHeap (BinaryMinHeap.insert [3, 9, 5, 25] 4) ∧
    (∀ m l2, BinaryMinHeap.delete_min [3, 9, 5, 25] = some (m, l2) →
      BinaryMinHeap.isHeap l2) ∧
    (∀ m l2, BinaryMinHeap.replace_min [3, 9, 5, 25] 4 = some (m, l2) →
      BinaryMinHeap.isHeap l2) :=
  heap_operations_preserve_invariant [3, 9, 5, 25] 4 (by decide)

end GraphADT
